import Mathlib

/-!
A verification development for the `timesheet` command-line tool
(`src/timesheet.py`).  The tool merges time entries fetched from a
time-tracking service (Clockwork) with issue metadata from an issue
tracker (Jira) into a single SQLite table `timesheet`, and offers
reporting views plus manual entry creation and removal.

We shallowly embed the persistent table and the five operations
(`sync`, `report`, `latest`, `create`, `remove`).  SQLite rows become a
`Row` structure; the table is a `Store` (list of rows plus the
auto-increment counter backing the `id` primary key).  `minutes` is a
rational number because Python computes `timeSpentSeconds / 60` with
float division and the report queries divide by `60.0`; exact rationals
capture the arithmetic without floating-point rounding.  Calendar dates
stay ISO `YYYY-MM-DD` strings, compared lexicographically exactly as
SQLite compares the TEXT `day` column.
-/

/-- One row of the `timesheet` table.
`entry_id` is the external (Clockwork) identifier; it is NULL (`none`)
for manually created rows.  `id` is the SQLite integer primary key. -/
structure Row where
  id : Nat
  entry_id : Option Nat
  day : String
  ticket : Option String
  description : String
  minutes : Rat
  project : String
  deriving Repr, DecidableEq

/-- The persistent store: the rows of the `timesheet` table together
with the next value of the auto-increment primary key. -/
structure Store where
  rows : List Row
  nextId : Nat
  deriving Repr, DecidableEq

def emptyStore : Store := ⟨[], 0⟩

/-- A raw time entry as returned by the Clockwork API: fields `id`,
`timeSpentSeconds`, `started` (ISO-8601 timestamp) and `issue.id`. -/
structure ClockEntry where
  id : Nat
  timeSpentSeconds : Int
  started : String
  issue_id : Nat
  deriving Repr, DecidableEq

/-- The relevant part of a Jira issue payload: `key` and
`fields.summary`. -/
structure JiraResp where
  key : String
  summary : String
  deriving Repr, DecidableEq

/-- The dictionary built by `jira_issue_info`: key, summary, and the
project code, which is the first 3 characters of the key. -/
structure IssueInfo where
  key : String
  summary : String
  project : String
  deriving Repr, DecidableEq

/-- `jira_issue_info` (src/timesheet.py:61-72): resolve an issue id to
`{key, summary, project := key[:3]}` via the issue-tracker client,
modelled as a function `jr` from issue id to response. -/
def jira_issue_info (jr : Nat → JiraResp) (issue_id : Nat) : IssueInfo :=
  { key := (jr issue_id).key
    summary := (jr issue_id).summary
    project := ((jr issue_id).key.take 3) }

/-- Minutes computed by `sync` (src/timesheet.py:100):
`entry['timeSpentSeconds'] / 60` with Python float division. -/
def entryMinutes (e : ClockEntry) : Rat := (e.timeSpentSeconds : Rat) / 60

/-- Day computed by `sync` (src/timesheet.py:101): the first 10
characters of `started`, i.e. the date part of the timestamp. -/
def entryDay (e : ClockEntry) : String := e.started.take 10

/-- Effect of the UPDATE of the upsert (src/timesheet.py:109-110) on a
single row: set `ticket`, `description`, `minutes`, `project`, `day`
when the row's `entry_id` equals the entry's external id. -/
def applyUpdate (e : ClockEntry) (info : IssueInfo) (r : Row) : Row :=
  if r.entry_id = some e.id then
    { r with ticket := some info.key, description := info.summary,
             minutes := entryMinutes e, project := info.project,
             day := entryDay e }
  else r

/-- The UPDATE of the upsert applied to the whole table. -/
def updateRows (rs : List Row) (e : ClockEntry) (info : IssueInfo) : List Row :=
  rs.map (applyUpdate e info)

/-- `cur.rowcount` after the UPDATE: the number of rows matched by
`WHERE entry_id=?`. -/
def updateCount (rs : List Row) (e : ClockEntry) : Nat :=
  rs.countP fun r => r.entry_id = some e.id

/-- The row inserted when the UPDATE matched nothing
(src/timesheet.py:112-113). -/
def insertedRow (s : Store) (e : ClockEntry) (info : IssueInfo) : Row :=
  { id := s.nextId, entry_id := some e.id, day := entryDay e,
    ticket := some info.key, description := info.summary,
    minutes := entryMinutes e, project := info.project }

/-- The upsert of one entry (src/timesheet.py:109-113): UPDATE all
fields where `entry_id` matches; if zero rows were affected, INSERT a
new row instead. -/
def upsert (s : Store) (e : ClockEntry) (info : IssueInfo) : Store :=
  if updateCount s.rows e = 0 then
    { rows := s.rows ++ [insertedRow s e info], nextId := s.nextId + 1 }
  else
    { s with rows := updateRows s.rows e info }

/-- The transient state threaded through the loop of `sync`
(src/timesheet.py:98-113): the in-transaction store, the memo map
`issue_map`, and the log of issue ids actually sent to the issue
tracker (for counting external round trips). -/
structure SyncState where
  store : Store
  memo : List (Nat × IssueInfo)
  queries : List Nat
  deriving Repr, DecidableEq

/-- `issue_map.get(issue_id)`. -/
def memoLookup (m : List (Nat × IssueInfo)) (i : Nat) : Option IssueInfo :=
  (m.find? fun p => p.1 = i).map Prod.snd

/-- One iteration of the loop of `sync` (src/timesheet.py:98-113):
resolve the issue info through the memo map, querying the tracker only
on a miss, then upsert the entry. -/
def syncStep (jr : Nat → JiraResp) (st : SyncState) (e : ClockEntry) : SyncState :=
  match memoLookup st.memo e.issue_id with
  | some info => { st with store := upsert st.store e info }
  | none =>
      let info := jira_issue_info jr e.issue_id
      { store := upsert st.store e info
        memo := (e.issue_id, info) :: st.memo
        queries := st.queries ++ [e.issue_id] }

/-- `sync` (src/timesheet.py:82-116), with the fetch abstracted to the
already-obtained batch `entries` and the issue tracker to `jr`:
fold the loop body over the batch starting from an empty memo map. -/
def syncRun (jr : Nat → JiraResp) (s : Store) (entries : List ClockEntry) : SyncState :=
  entries.foldl (syncStep jr) ⟨s, [], []⟩

/-- The store persisted by a successful `sync` (committed at
src/timesheet.py:115). -/
def sync (jr : Nat → JiraResp) (s : Store) (entries : List ClockEntry) : Store :=
  (syncRun jr s entries).store

/-! ## Reporting queries

`report` and `latest` restrict to rows with `day >= today - horizon`
(SQL `WHERE day >= ?` on the TEXT column, i.e. lexicographic comparison
of ISO date strings).  Both compute the cutoff the same way
(`(today - timedelta(days=horizon)).strftime("%Y-%m-%d")`); we abstract
the computed cutoff date string as a parameter, since wall-clock time
is outside the model.  Printed lines are modelled structurally as the
pair of the textual key and the rational number that is interpolated
into the line, so that the claims about *which* number is printed are
independent of decimal rendering. -/

/-- First occurrences of the group keys, in row order: the set of
groups produced by SQL `GROUP BY`. -/
def distinctInOrder : List String → List String
  | [] => []
  | d :: rest => d :: (distinctInOrder rest).filter (fun x => x ≠ d)

/-- Insert into a list sorted by key `k` (ascending). -/
def insertByKey (k : α → String) (x : α) : List α → List α
  | [] => [x]
  | y :: ys => if k y ≤ k x then y :: insertByKey k x ys else x :: y :: ys

/-- Insertion sort by key `k`: models SQL `ORDER BY` (ascending). -/
def sortByKey (k : α → String) : List α → List α
  | [] => []
  | x :: xs => insertByKey k x (sortByKey k xs)

/-- The `WHERE day >= ?` restriction of `report`
(src/timesheet.py:129-131 and 139-141). -/
def reportCutoffRows (s : Store) (cutoff : String) : List Row :=
  s.rows.filter fun r => cutoff ≤ r.day

/-- Sum of `minutes` over a list of rows (SQL `SUM(minutes)`). -/
def sumMinutes (rs : List Row) : Rat :=
  (rs.map Row.minutes).sum

/-- The first aggregate view of `report` (src/timesheet.py:129-135):
`SELECT project, sum(minutes)/60.0 FROM timesheet WHERE day >= ?
GROUP BY 1`, each row printed as `"<project>: <row[1]> hours"`.
Result: one `(project, printed number)` pair per project group. -/
def reportPerProject (s : Store) (cutoff : String) : List (String × Rat) :=
  (distinctInOrder ((reportCutoffRows s cutoff).map Row.project)).map
    fun p => (p, sumMinutes ((reportCutoffRows s cutoff).filter fun r => r.project = p) / 60)

/-- The rows of the second query of `report` (src/timesheet.py:139-141):
`SELECT day, SUM(minutes) FROM timesheet WHERE day >= ? GROUP BY day
ORDER BY 1` — note the query returns the raw minute sums. -/
def reportPerDayMinutes (s : Store) (cutoff : String) : List (String × Rat) :=
  (sortByKey id (distinctInOrder ((reportCutoffRows s cutoff).map Row.day))).map
    fun d => (d, sumMinutes ((reportCutoffRows s cutoff).filter fun r => r.day = d))

/-- The lines printed for the second view (src/timesheet.py:144-145):
`print(f"{row[0]}: Total {row[1]/60.0} hours")` — the printed number is
the day's minute sum divided by 60. -/
def reportPerDayPrinted (s : Store) (cutoff : String) : List (String × Rat) :=
  (reportPerDayMinutes s cutoff).map fun p => (p.1, p.2 / 60)

/-- The rows listed by `latest` (src/timesheet.py:159-162):
`SELECT ... FROM timesheet WHERE day >= ? ORDER BY 1`. -/
def latestRows (s : Store) (cutoff : String) : List Row :=
  sortByKey Row.day (s.rows.filter fun r => cutoff ≤ r.day)

/-- The number printed for one `latest` row (src/timesheet.py:165):
`[{row[3]/60} hours]`. -/
def latestHours (r : Row) : Rat := r.minutes / 60

/-! ## Manual entry management -/

/-- `create` (src/timesheet.py:174-195): insert one row with the
supplied fields, `project` upper-cased, `entry_id` left unset (NULL).
The CLI passes `minutes` through unvalidated; we model the stored value
as an arbitrary rational. -/
def create (s : Store) (project : String) (minutes : Rat)
    (description : String) (ticket : Option String) (day : String) : Store :=
  { rows := s.rows ++
      [{ id := s.nextId, entry_id := none, day := day, ticket := ticket,
         description := description, minutes := minutes,
         project := project.toUpper }]
    nextId := s.nextId + 1 }

/-- `SELECT MAX(id) FROM timesheet`: NULL on an empty table. -/
def maxId (rs : List Row) : Option Nat :=
  (rs.map Row.id).max?

/-- `remove` (src/timesheet.py:209-219):
`DELETE FROM timesheet WHERE id=(SELECT MAX(id) FROM timesheet)`.
When the table is empty the subquery yields NULL and `id=NULL` matches
no row. -/
def remove (s : Store) : Store :=
  { s with rows := s.rows.filter fun r => ¬ maxId s.rows = some r.id }

/-! ## Fallible synchronization with an explicit transaction trace

For the commit-once / atomicity claim we re-run `sync` against fallible
external clients (`Except Unit` models an HTTP error raised by
`raise_for_status`) and record the trace of statements executed on the
database connection.  A failure raises out of `sync` before the single
`db.commit()` at src/timesheet.py:115, so an uncommitted transaction is
discarded; `persisted` below gives the resulting on-disk store: replay
the trace up to the last `COMMIT`, ignore everything after it. -/

inductive DbAction where
  | update (e : ClockEntry) (info : IssueInfo)
  | insert (e : ClockEntry) (info : IssueInfo)
  | commit
  deriving Repr, DecidableEq

def isCommit : DbAction → Bool
  | .commit => true
  | _ => false

/-- Effect of one statement on the in-transaction store. -/
def applyAction (s : Store) : DbAction → Store
  | .update e info => { s with rows := updateRows s.rows e info }
  | .insert e info =>
      { rows := s.rows ++ [insertedRow s e info], nextId := s.nextId + 1 }
  | .commit => s

/-- The statements the upsert of one entry executes
(src/timesheet.py:109-113): always the UPDATE, then the INSERT exactly
when the UPDATE affected zero rows. -/
def upsertActs (s : Store) (e : ClockEntry) (info : IssueInfo) : List DbAction :=
  if updateCount s.rows e = 0 then [.update e info, .insert e info]
  else [.update e info]

/-- The loop of `sync` over fallible issue lookups: returns the trace
of statements executed before returning or raising, and either the
final in-memory state or the error. -/
def syncLoopT (jr : Nat → Except Unit JiraResp) (st : SyncState) :
    List ClockEntry → List DbAction × Except Unit SyncState
  | [] => ([], .ok st)
  | e :: rest =>
    match memoLookup st.memo e.issue_id with
    | some info =>
        let res := syncLoopT jr { st with store := upsert st.store e info } rest
        (upsertActs st.store e info ++ res.1, res.2)
    | none =>
        match jr e.issue_id with
        | .error err => ([], .error err)
        | .ok resp =>
            let info : IssueInfo := ⟨resp.key, resp.summary, resp.key.take 3⟩
            let res := syncLoopT jr
              ⟨upsert st.store e info, (e.issue_id, info) :: st.memo,
               st.queries ++ [e.issue_id]⟩ rest
            (upsertActs st.store e info ++ res.1, res.2)

/-- `sync` (src/timesheet.py:82-116) against fallible clients: fetch
the batch (raising aborts before any statement), run the loop, and
execute the single `db.commit()` only after the whole batch succeeded. -/
def syncT (fetch : Except Unit (List ClockEntry))
    (jr : Nat → Except Unit JiraResp) (s : Store) :
    List DbAction × Except Unit Store :=
  match fetch with
  | .error err => ([], .error err)
  | .ok entries =>
    let res := syncLoopT jr ⟨s, [], []⟩ entries
    match res.2 with
    | .error err => (res.1, .error err)
    | .ok st => (res.1 ++ [.commit], .ok st.store)

/-- The prefix of a trace up to and including its last `COMMIT`
(empty when the trace holds no commit). -/
def committedPart : List DbAction → List DbAction
  | [] => []
  | a :: rest =>
      if rest.any isCommit then a :: committedPart rest
      else if isCommit a then [a] else []

/-- The on-disk store after a run that executed trace `tr` from store
`s0`: only statements covered by the last commit take effect. -/
def persisted (s0 : Store) (tr : List DbAction) : Store :=
  (committedPart tr).foldl applyAction s0

/-! ## Basic lemmas about the upsert -/

/-- The UPDATE never changes a row's `entry_id`. -/
lemma applyUpdate_entry_id (e : ClockEntry) (info : IssueInfo) (r : Row) :
    (applyUpdate e info r).entry_id = r.entry_id := by
  unfold applyUpdate; split <;> rfl

/-- The UPDATE leaves a row without `entry_id` untouched. -/
lemma applyUpdate_of_none (e : ClockEntry) (info : IssueInfo) (r : Row)
    (h : r.entry_id = none) : applyUpdate e info r = r := by
  unfold applyUpdate
  rw [h]
  simp

/-- The UPDATE preserves, per `entry_id`, the number of rows. -/
lemma countP_updateRows (rs : List Row) (e : ClockEntry) (info : IssueInfo)
    (n : Nat) :
    (updateRows rs e info).countP (fun r => r.entry_id = some n) =
      rs.countP (fun r => r.entry_id = some n) := by
  unfold updateRows
  rw [List.countP_map]
  refine List.countP_congr fun r _ => ?_
  simp [Function.comp, applyUpdate_entry_id]

/-- At most one row of the table carries any given external
`entry_id`. -/
def atMostOnePerEntryId (s : Store) : Prop :=
  ∀ n : Nat, s.rows.countP (fun r => r.entry_id = some n) ≤ 1

/-- The upsert preserves uniqueness of `entry_id`. -/
lemma upsert_atMostOne (s : Store) (e : ClockEntry) (info : IssueInfo)
    (h : atMostOnePerEntryId s) : atMostOnePerEntryId (upsert s e info) := by
  intro n
  unfold upsert
  split
  case isTrue h0 =>
    simp only [List.countP_append]
    have hsingle : [insertedRow s e info].countP
        (fun r => r.entry_id = some n) ≤ 1 := by
      simpa using List.countP_le_length
        (p := fun r => decide (r.entry_id = some n))
        (l := [insertedRow s e info])
    by_cases hn : n = e.id
    · have hz : s.rows.countP (fun r => r.entry_id = some n) = 0 := by
        rw [hn]; exact h0
      omega
    · have hzero : [insertedRow s e info].countP
          (fun r => r.entry_id = some n) = 0 := by
        simp only [List.countP_cons, List.countP_nil, insertedRow]
        simp only [Option.some.injEq]
        simp
        exact fun hh => hn hh.symm
      have hs := h n
      omega
  case isFalse h0 =>
    simpa only [countP_updateRows] using h n

/-- Every step of the sync loop preserves uniqueness of `entry_id`. -/
lemma syncStep_atMostOne (jr : Nat → JiraResp) (st : SyncState)
    (e : ClockEntry) (h : atMostOnePerEntryId st.store) :
    atMostOnePerEntryId (syncStep jr st e).store := by
  unfold syncStep
  cases hm : memoLookup st.memo e.issue_id with
  | some info => exact upsert_atMostOne _ _ _ h
  | none => exact upsert_atMostOne _ _ _ h

/-- The whole sync loop preserves uniqueness of `entry_id`. -/
lemma syncFold_atMostOne (jr : Nat → JiraResp) (entries : List ClockEntry) :
    ∀ st : SyncState, atMostOnePerEntryId st.store →
      atMostOnePerEntryId ((entries.foldl (syncStep jr) st).store) := by
  induction entries with
  | nil => intro st h; exact h
  | cons e rest ih =>
      intro st h
      exact ih _ (syncStep_atMostOne jr st e h)

/-- C1: the upsert keyed by `entry_id` updates in place and inserts
only when the UPDATE affected zero rows; hence if every `entry_id`
labels at most one row, the same holds after any number of sync runs —
re-syncing never duplicates a row. -/
theorem sync_at_most_one_row_per_entry_id (jr : Nat → JiraResp)
    (runs : List (List ClockEntry)) (s : Store)
    (h : atMostOnePerEntryId s) :
    atMostOnePerEntryId (runs.foldl (sync jr) s) := by
  induction runs generalizing s with
  | nil => exact h
  | cons entries rest ih =>
      exact ih _ (syncFold_atMostOne jr entries ⟨s, [], []⟩ h)

/-! ## Manual rows are invisible to synchronization -/

/-- The UPDATE preserves the sublist of rows without `entry_id`. -/
lemma filter_none_updateRows (rs : List Row) (e : ClockEntry)
    (info : IssueInfo) :
    (updateRows rs e info).filter (fun r => r.entry_id = none) =
      rs.filter (fun r => r.entry_id = none) := by
  induction rs with
  | nil => rfl
  | cons r rs ih =>
      simp only [updateRows, List.map_cons, List.filter_cons] at *
      by_cases hr : r.entry_id = none
      · rw [applyUpdate_of_none e info r hr]
        simp [hr, ih]
      · have h2 : (applyUpdate e info r).entry_id = r.entry_id :=
          applyUpdate_entry_id e info r
        simp [h2, hr, ih]

/-- The upsert preserves the sublist of rows without `entry_id`. -/
lemma filter_none_upsert (s : Store) (e : ClockEntry) (info : IssueInfo) :
    (upsert s e info).rows.filter (fun r => r.entry_id = none) =
      s.rows.filter (fun r => r.entry_id = none) := by
  unfold upsert
  split
  · simp [List.filter_append, insertedRow]
  · exact filter_none_updateRows s.rows e info

/-- The sync loop preserves the sublist of rows without `entry_id`. -/
lemma filter_none_syncFold (jr : Nat → JiraResp) (entries : List ClockEntry) :
    ∀ st : SyncState,
      ((entries.foldl (syncStep jr) st).store.rows.filter
        (fun r => r.entry_id = none)) =
      st.store.rows.filter (fun r => r.entry_id = none) := by
  induction entries with
  | nil => intro st; rfl
  | cons e rest ih =>
      intro st
      rw [List.foldl_cons, ih]
      unfold syncStep
      cases memoLookup st.memo e.issue_id with
      | some info => exact filter_none_upsert st.store e info
      | none => exact filter_none_upsert st.store e (jira_issue_info jr e.issue_id)

/-- C4: every row added by `create` carries no `entry_id`, and `sync`
leaves the rows without `entry_id` exactly as they were. -/
theorem create_null_entry_id_sync_untouched (p : String) (m : Rat)
    (desc : String) (t : Option String) (dy : String)
    (jr : Nat → JiraResp) (entries : List ClockEntry) (s : Store) :
    (∀ r ∈ (create s p m desc t dy).rows, r ∈ s.rows ∨ r.entry_id = none)
    ∧ (sync jr s entries).rows.filter (fun r => r.entry_id = none) =
        s.rows.filter (fun r => r.entry_id = none) := by
  constructor
  · intro r hr
    rw [create, List.mem_append] at hr
    cases hr with
    | inl h => exact Or.inl h
    | inr h =>
        right
        rw [List.mem_singleton] at h
        rw [h]
  · exact filter_none_syncFold jr entries ⟨s, [], []⟩

/-! ## Concrete example data shared by the witnesses -/

/-- An issue tracker stub: issue `i` resolves to key `JIR-<i>`. -/
def exJr : Nat → JiraResp := fun i => ⟨"JIR-" ++ toString i, "some task"⟩

/-- A sample fetched time entry: one hour on issue 7. -/
def exEntry : ClockEntry := ⟨42, 3600, "2024-01-01T09:00:00Z", 7⟩

/-- A store holding one manually created row (no `entry_id`). -/
def exManualRow : Row := ⟨0, none, "2024-01-01", none, "manual work", 30, "ABC"⟩

def exManualStore : Store := ⟨[exManualRow], 1⟩

/-- The row `create` appends to an empty store in the witness below. -/
def exCreatedRow : Row :=
  ⟨0, none, "2024-01-02", none, "d", 30, String.toUpper "abc"⟩

/-- Witness for C1 at concrete inputs: the empty store satisfies the
invariant, and so does the store after two sync runs of the same
batch. -/
theorem sync_at_most_one_row_per_entry_id_witness :
    atMostOnePerEntryId emptyStore ∧
      atMostOnePerEntryId ([[exEntry], [exEntry]].foldl (sync exJr) emptyStore) := by
  have h0 : atMostOnePerEntryId emptyStore := by
    intro n; simp [emptyStore]
  exact ⟨h0, sync_at_most_one_row_per_entry_id exJr [[exEntry], [exEntry]] emptyStore h0⟩

/-- Witness for C4 at concrete inputs. -/
theorem create_null_entry_id_sync_untouched_witness :
    (exCreatedRow ∈ (create emptyStore "abc" 30 "d" none "2024-01-02").rows
      ∧ (exCreatedRow ∈ emptyStore.rows ∨ exCreatedRow.entry_id = none))
    ∧ (sync exJr exManualStore [exEntry]).rows.filter
        (fun r => r.entry_id = none) =
      exManualStore.rows.filter (fun r => r.entry_id = none) := by
  have hmem : exCreatedRow ∈ (create emptyStore "abc" 30 "d" none "2024-01-02").rows :=
    List.mem_singleton.mpr rfl
  exact ⟨⟨hmem,
    (create_null_entry_id_sync_untouched "abc" 30 "d" none "2024-01-02"
      exJr [exEntry] emptyStore).1 exCreatedRow hmem⟩,
    (create_null_entry_id_sync_untouched "abc" 30 "d" none "2024-01-02"
      exJr [exEntry] exManualStore).2⟩

/-! ## Removal of the most recently inserted row -/

/-- With the DELETE's subquery resolved, `remove` filters out the rows
whose `id` equals the maximum id. -/
lemma remove_rows_of_max (s : Store) (m : Nat) (hmax : maxId s.rows = some m) :
    (remove s).rows = s.rows.filter (fun r => decide (¬ r.id = m)) := by
  unfold remove
  simp only [hmax, Option.some.injEq]
  refine List.filter_congr fun r _ => ?_
  simp [eq_comm]

/-- C6: `remove` deletes exactly one row, the one whose internal `id`
is the maximum over the table, regardless of its `day`; every other
row survives unchanged. -/
theorem remove_deletes_max_id (s : Store) (rmax : Row)
    (hmem : rmax ∈ s.rows) (hmax : maxId s.rows = some rmax.id)
    (hnd : (s.rows.map Row.id).Nodup) :
    (remove s).rows.length + 1 = s.rows.length
    ∧ rmax ∉ (remove s).rows
    ∧ ∀ r ∈ s.rows, r.id ≠ rmax.id → r ∈ (remove s).rows := by
  have hfil := remove_rows_of_max s rmax.id hmax
  have hcount : s.rows.countP (fun r => r.id = rmax.id) = 1 := by
    have hmm : rmax.id ∈ s.rows.map Row.id := List.mem_map_of_mem Row.id hmem
    have h1 : (s.rows.map Row.id).count rmax.id = 1 :=
      List.count_eq_one_of_mem hnd hmm
    rw [List.count, List.countP_map] at h1
    rw [← h1]
    refine List.countP_congr fun r _ => ?_
    simp [Function.comp]
  refine ⟨?_, ?_, ?_⟩
  · rw [hfil, ← List.countP_eq_length_filter]
    simp only [decide_not]
    have key : ∀ l : List Row,
        l.countP (fun r => !decide (r.id = rmax.id)) +
          l.countP (fun r => r.id = rmax.id) = l.length := by
      intro l
      induction l with
      | nil => rfl
      | cons x xs ih =>
          by_cases hx : x.id = rmax.id <;>
            simp [List.countP_cons, hx] <;> omega
    have hk := key s.rows
    omega
  · rw [hfil]
    intro hc
    have := (List.mem_filter.mp hc).2
    simp at this
  · intro r hr hne
    rw [hfil]
    exact List.mem_filter.mpr ⟨hr, by simpa using hne⟩

/-- Two-row store: the row inserted last (`id = 1`) carries an earlier
`day` than the row with `id = 0`. -/
def exRowLaterDay : Row := ⟨0, none, "2024-05-09", none, "newer day", 60, "ABC"⟩

def exRowMaxId : Row := ⟨1, none, "2024-01-01", none, "older day", 30, "XYZ"⟩

def exStoreC6 : Store := ⟨[exRowLaterDay, exRowMaxId], 2⟩

/-- Witness for C6: in a store where a later-dated row has the smaller
`id`, `remove` deletes the max-`id` row (the earlier-dated one) and
keeps the later-dated row. -/
theorem remove_deletes_max_id_witness :
    (remove exStoreC6).rows.length + 1 = exStoreC6.rows.length
    ∧ exRowMaxId ∉ (remove exStoreC6).rows
    ∧ exRowLaterDay ∈ (remove exStoreC6).rows := by
  have h := remove_deletes_max_id exStoreC6 exRowMaxId (by decide) (by decide)
    (by decide)
  exact ⟨h.1, h.2.1, h.2.2 exRowLaterDay (by decide) (by decide)⟩

/-- C10: on an empty store, the DELETE of `remove` matches nothing
(`MAX(id)` is NULL): the store is unchanged and the `latest(0)` view
shown afterwards lists nothing. -/
theorem remove_empty_store_noop (s : Store) (h : s.rows = []) :
    remove s = s ∧ ∀ cutoff, latestRows (remove s) cutoff = [] := by
  obtain ⟨rows, nid⟩ := s
  simp only at h
  subst h
  exact ⟨rfl, fun cutoff => rfl⟩

/-- Witness for C10 at the concrete empty store. -/
theorem remove_empty_store_noop_witness :
    emptyStore.rows = [] ∧ remove emptyStore = emptyStore
    ∧ latestRows (remove emptyStore) "2024-01-01" = [] := by
  have h := remove_empty_store_noop emptyStore rfl
  exact ⟨rfl, h.1, h.2 "2024-01-01"⟩

/-! ## Lemmas about grouping and ordering -/

lemma mem_distinctInOrder (x : String) :
    ∀ l : List String, x ∈ distinctInOrder l ↔ x ∈ l := by
  intro l
  induction l with
  | nil => simp [distinctInOrder]
  | cons d rest ih =>
      simp only [distinctInOrder, List.mem_cons, List.mem_filter]
      constructor
      · rintro (h | ⟨h, _⟩)
        · exact Or.inl h
        · exact Or.inr (ih.mp h)
      · rintro (h | h)
        · exact Or.inl h
        · by_cases hx : x = d
          · exact Or.inl hx
          · exact Or.inr ⟨ih.mpr h, by simpa using hx⟩

lemma nodup_distinctInOrder : ∀ l : List String, (distinctInOrder l).Nodup := by
  intro l
  induction l with
  | nil => simp [distinctInOrder]
  | cons d rest ih =>
      simp only [distinctInOrder, List.nodup_cons]
      refine ⟨?_, ih.filter _⟩
      intro hmem
      have := (List.mem_filter.mp hmem).2
      simp at this

lemma mem_insertByKey (k : α → String) (x y : α) :
    ∀ l : List α, y ∈ insertByKey k x l ↔ y = x ∨ y ∈ l := by
  intro l
  induction l with
  | nil => simp [insertByKey]
  | cons z zs ih =>
      simp only [insertByKey]
      split
      · simp only [List.mem_cons, ih]
        tauto
      · simp only [List.mem_cons]

lemma mem_sortByKey (k : α → String) (y : α) :
    ∀ l : List α, y ∈ sortByKey k l ↔ y ∈ l := by
  intro l
  induction l with
  | nil => simp [sortByKey]
  | cons z zs ih =>
      simp only [sortByKey, mem_insertByKey, List.mem_cons, ih]

/-- C7: the date window is inclusive at its lower bound: a row whose
`day` equals the cutoff `today - horizon` is selected both by the
`report` queries and by the `latest` listing. -/
theorem window_lower_bound_inclusive (s : Store) (cutoff : String) (r : Row)
    (hr : r ∈ s.rows) (hd : r.day = cutoff) :
    r ∈ reportCutoffRows s cutoff ∧ r ∈ latestRows s cutoff := by
  have hle : decide (cutoff ≤ r.day) = true := by
    rw [hd]; simp
  exact ⟨List.mem_filter.mpr ⟨hr, hle⟩,
    (mem_sortByKey Row.day r _).mpr (List.mem_filter.mpr ⟨hr, hle⟩)⟩

/-- Witness for C7: a store holding a row dated exactly at the cutoff. -/
theorem window_lower_bound_inclusive_witness :
    exManualRow ∈ exManualStore.rows ∧ exManualRow.day = "2024-01-01"
    ∧ exManualRow ∈ reportCutoffRows exManualStore "2024-01-01"
    ∧ exManualRow ∈ latestRows exManualStore "2024-01-01" := by
  have h := window_lower_bound_inclusive exManualStore "2024-01-01" exManualRow
    (by decide) (by decide)
  exact ⟨by decide, by decide, h.1, h.2⟩

/-- C5: the first aggregate view of `report` yields one line per
project group of the windowed rows, and the number printed for a
project is the sum of its rows' minutes divided by 60. -/
theorem report_per_project_sum_div_60 (s : Store) (cutoff : String) :
    ((reportPerProject s cutoff).map Prod.fst).Nodup
    ∧ (∀ p : String, p ∈ (reportPerProject s cutoff).map Prod.fst ↔
        ∃ r ∈ reportCutoffRows s cutoff, r.project = p)
    ∧ ∀ pr ∈ reportPerProject s cutoff,
        pr.2 = sumMinutes ((reportCutoffRows s cutoff).filter
          (fun r => r.project = pr.1)) / 60 := by
  refine ⟨?_, ?_, ?_⟩
  · have h := nodup_distinctInOrder ((reportCutoffRows s cutoff).map Row.project)
    unfold reportPerProject
    rw [List.map_map]
    have hid : (Prod.fst ∘ fun p : String =>
        (p, sumMinutes ((reportCutoffRows s cutoff).filter
          fun r => r.project = p) / 60)) = id := rfl
    rw [hid, List.map_id]
    exact h
  · intro p
    simp [reportPerProject, List.map_map, Function.comp,
      mem_distinctInOrder, List.mem_map]
  · intro pr hpr
    unfold reportPerProject at hpr
    rw [List.mem_map] at hpr
    obtain ⟨p, _, hpr⟩ := hpr
    rw [← hpr]

/-- The three rows of the aggregation example in the specification:
60 and 30 minutes on ABC (2024-01-01), 120 minutes on XYZ
(2024-01-02). -/
def exRowAbc60 : Row := ⟨0, none, "2024-01-01", none, "a", 60, "ABC"⟩

def exRowAbc30 : Row := ⟨1, none, "2024-01-01", none, "b", 30, "ABC"⟩

def exRowXyz120 : Row := ⟨2, none, "2024-01-02", none, "c", 120, "XYZ"⟩

def exReportStore : Store := ⟨[exRowAbc60, exRowAbc30, exRowXyz120], 3⟩

/-- The window starting 2024-01-01 keeps all three example rows. -/
lemma exReportStore_cutoff :
    reportCutoffRows exReportStore "2024-01-01" =
      [exRowAbc60, exRowAbc30, exRowXyz120] := by
  simp [reportCutoffRows, exReportStore, exRowAbc60, exRowAbc30, exRowXyz120,
    List.filter_cons]
  decide

/-- Witness for C5: with rows of 60 and 30 minutes for ABC, the
ABC line prints 1.5 (= 3/2) hours. -/
theorem report_per_project_sum_div_60_witness :
    ("ABC", (3:Rat)/2) ∈ reportPerProject exReportStore "2024-01-01"
    ∧ (3:Rat)/2 = sumMinutes ((reportCutoffRows exReportStore "2024-01-01").filter
        (fun r => r.project = "ABC")) / 60 := by
  have hf : (reportCutoffRows exReportStore "2024-01-01").filter
      (fun r => r.project = "ABC") = [exRowAbc60, exRowAbc30] := by
    rw [exReportStore_cutoff]
    simp [List.filter_cons, exRowAbc60, exRowAbc30, exRowXyz120]
  have hv : sumMinutes ((reportCutoffRows exReportStore "2024-01-01").filter
      (fun r => r.project = "ABC")) / 60 = 3/2 := by
    rw [hf]; norm_num [sumMinutes, exRowAbc60, exRowAbc30]
  have hd : distinctInOrder ((reportCutoffRows exReportStore "2024-01-01").map
      Row.project) = ["ABC", "XYZ"] := by
    rw [exReportStore_cutoff]
    simp [distinctInOrder, List.filter_cons, exRowAbc60, exRowAbc30, exRowXyz120]
  have hmem : ("ABC", sumMinutes ((reportCutoffRows exReportStore "2024-01-01").filter
      (fun r => r.project = "ABC")) / 60) ∈
        reportPerProject exReportStore "2024-01-01" := by
    unfold reportPerProject
    rw [hd]
    exact List.mem_map_of_mem _ (List.mem_cons_self _ _)
  have hmem2 : ("ABC", (3:Rat)/2) ∈ reportPerProject exReportStore "2024-01-01" := by
    rw [← hv]; exact hmem
  exact ⟨hmem2,
    (report_per_project_sum_div_60 exReportStore "2024-01-01").2.2
      ("ABC", (3:Rat)/2) hmem2⟩

/-! ## The per-day view divides by 60 as well

The second query of `report` returns raw minute sums
(`SELECT day, SUM(minutes) ...`), but the print statement at
src/timesheet.py:145 interpolates `row[1]/60.0`: the printed per-day
number is hours, not raw minutes. -/

/-- Store with 60- and 30-minute rows on the same day. -/
def exC2Store : Store := ⟨[exRowAbc60, exRowAbc30], 2⟩

/-- The window starting 2024-01-01 keeps both rows of `exC2Store`. -/
lemma exC2Store_cutoff :
    reportCutoffRows exC2Store "2024-01-01" = [exRowAbc60, exRowAbc30] := by
  simp [reportCutoffRows, exC2Store, exRowAbc60, exRowAbc30, List.filter_cons]

/-- Both example rows fall on day 2024-01-01. -/
lemma exC2_day_filter :
    (reportCutoffRows exC2Store "2024-01-01").filter
      (fun r => r.day = "2024-01-01") = [exRowAbc60, exRowAbc30] := by
  rw [exC2Store_cutoff]
  simp [List.filter_cons, exRowAbc60, exRowAbc30]

/-- On the two-row example, the per-day view prints 3/2 (= 1.5). -/
lemma exC2_printed :
    reportPerDayPrinted exC2Store "2024-01-01" = [("2024-01-01", (3:Rat)/2)] := by
  have hd : distinctInOrder ((reportCutoffRows exC2Store "2024-01-01").map
      Row.day) = ["2024-01-01"] := by
    rw [exC2Store_cutoff]
    simp [distinctInOrder, List.filter_cons, exRowAbc60, exRowAbc30]
  unfold reportPerDayPrinted reportPerDayMinutes
  rw [hd]
  norm_num [sortByKey, insertByKey, exC2_day_filter, sumMinutes,
    exRowAbc60, exRowAbc30]

/-- Counterexample to C2 as stated: with rows of 60 and 30 minutes on
2024-01-01, the day's raw `SUM(minutes)` is 90, but the printed number
is 90/60 = 3/2, not 90 — the per-day view does divide by 60. -/
theorem report_per_day_not_raw_minutes :
    reportPerDayPrinted exC2Store "2024-01-01" = [("2024-01-01", (3:Rat)/2)]
    ∧ ((3:Rat)/2) ≠ 90
    ∧ sumMinutes ((reportCutoffRows exC2Store "2024-01-01").filter
        (fun r => r.day = "2024-01-01")) = 90 := by
  refine ⟨exC2_printed, by norm_num, ?_⟩
  rw [exC2_day_filter]
  norm_num [sumMinutes, exRowAbc60, exRowAbc30]

/-- C2 amended: the second aggregate view of `report` prints, for each
day with windowed rows, the line `<day>: Total <X> hours` where `X` is
that day's `SUM(minutes)` divided by 60 — the same minutes-to-hours
conversion as the per-project view and `latest`, not the raw sum. -/
theorem report_per_day_sum_div_60 (s : Store) (cutoff : String) :
    (∀ d : String, d ∈ (reportPerDayPrinted s cutoff).map Prod.fst ↔
        ∃ r ∈ reportCutoffRows s cutoff, r.day = d)
    ∧ ∀ pr ∈ reportPerDayPrinted s cutoff,
        pr.2 = sumMinutes ((reportCutoffRows s cutoff).filter
          (fun r => r.day = pr.1)) / 60 := by
  constructor
  · intro d
    simp [reportPerDayPrinted, reportPerDayMinutes, List.map_map,
      Function.comp, List.mem_map, mem_sortByKey, mem_distinctInOrder]
  · intro pr hpr
    unfold reportPerDayPrinted reportPerDayMinutes at hpr
    rw [List.mem_map] at hpr
    obtain ⟨q, hq, hpr⟩ := hpr
    rw [List.mem_map] at hq
    obtain ⟨d, _, hq⟩ := hq
    rw [← hpr, ← hq]

/-- Witness for the amended C2 at the concrete two-row store. -/
theorem report_per_day_sum_div_60_witness :
    ("2024-01-01", (3:Rat)/2) ∈ reportPerDayPrinted exC2Store "2024-01-01"
    ∧ (3:Rat)/2 = sumMinutes ((reportCutoffRows exC2Store "2024-01-01").filter
        (fun r => r.day = "2024-01-01")) / 60 := by
  have hmem : ("2024-01-01", (3:Rat)/2) ∈ reportPerDayPrinted exC2Store "2024-01-01" := by
    rw [exC2_printed]
    exact List.mem_singleton.mpr rfl
  exact ⟨hmem,
    (report_per_day_sum_div_60 exC2Store "2024-01-01").2
      ("2024-01-01", (3:Rat)/2) hmem⟩

/-! ## Minutes and validation

Neither `create` nor `sync` validates durations: `create` persists the
supplied minutes verbatim (the CLI passes the positional argument
through without a type check), and `sync` persists
`timeSpentSeconds / 60` for whatever seconds value the time service
returned. -/

/-- Counterexample to C9 as stated: calling `create` with -30 minutes
persists a row whose `minutes` value is negative — no validation
rejects it. -/
theorem create_persists_negative_minutes :
    ((create emptyStore "abc" (-30) "d" none "2024-01-01").rows.all
      (fun r => 0 ≤ r.minutes)) = false := by decide

lemma entryMinutes_nonneg (e : ClockEntry) (h : 0 ≤ e.timeSpentSeconds) :
    0 ≤ entryMinutes e := by
  unfold entryMinutes
  have h60 : (0:Rat) ≤ 60 := by norm_num
  exact div_nonneg (by exact_mod_cast h) h60

/-- The UPDATE writes either the entry's converted minutes or leaves
the row's minutes unchanged. -/
lemma applyUpdate_minutes (e : ClockEntry) (info : IssueInfo) (r : Row) :
    (applyUpdate e info r).minutes = entryMinutes e
    ∨ (applyUpdate e info r).minutes = r.minutes := by
  unfold applyUpdate
  split
  · exact Or.inl rfl
  · exact Or.inr rfl

lemma upsert_minutes_nonneg (s : Store) (e : ClockEntry) (info : IssueInfo)
    (hs : ∀ r ∈ s.rows, 0 ≤ r.minutes) (he : 0 ≤ entryMinutes e) :
    ∀ r ∈ (upsert s e info).rows, 0 ≤ r.minutes := by
  intro r hr
  unfold upsert at hr
  split at hr
  · rw [List.mem_append] at hr
    cases hr with
    | inl h => exact hs r h
    | inr h =>
        rw [List.mem_singleton] at h
        rw [h]
        exact he
  · unfold updateRows at hr
    rw [List.mem_map] at hr
    obtain ⟨r0, hr0, hru⟩ := hr
    cases applyUpdate_minutes e info r0 with
    | inl h => rw [← hru, h]; exact he
    | inr h => rw [← hru, h]; exact hs r0 hr0

lemma syncFold_minutes_nonneg (jr : Nat → JiraResp) (entries : List ClockEntry) :
    ∀ st : SyncState, (∀ r ∈ st.store.rows, 0 ≤ r.minutes) →
      (∀ e ∈ entries, 0 ≤ e.timeSpentSeconds) →
      ∀ r ∈ ((entries.foldl (syncStep jr) st).store.rows), 0 ≤ r.minutes := by
  induction entries with
  | nil => intro st hst _; exact hst
  | cons e rest ih =>
      intro st hst he
      have hm : 0 ≤ entryMinutes e :=
        entryMinutes_nonneg e (he e (List.mem_cons_self e rest))
      have hstep : ∀ r ∈ (syncStep jr st e).store.rows, 0 ≤ r.minutes := by
        unfold syncStep
        cases memoLookup st.memo e.issue_id with
        | some info => exact upsert_minutes_nonneg st.store e info hst hm
        | none => exact upsert_minutes_nonneg st.store e _ hst hm
      exact ih _ hstep (fun x hx => he x (List.mem_cons_of_mem e hx))

/-- C9 amended: the store never invents a negative duration, but it
also performs no validation: a row persisted by `create` carries
exactly the supplied minutes, hence is non-negative exactly when the
input is, and rows written by `sync` carry `timeSpentSeconds / 60`,
non-negative whenever every fetched seconds value is. -/
theorem minutes_nonneg_of_nonneg_inputs (s : Store) (p desc : String)
    (t : Option String) (dy : String) (m : Rat) (jr : Nat → JiraResp)
    (entries : List ClockEntry)
    (hs : ∀ r ∈ s.rows, 0 ≤ r.minutes) (hm : 0 ≤ m)
    (he : ∀ e ∈ entries, 0 ≤ e.timeSpentSeconds) :
    (∀ r ∈ (create s p m desc t dy).rows, 0 ≤ r.minutes)
    ∧ (∀ r ∈ (sync jr s entries).rows, 0 ≤ r.minutes) := by
  constructor
  · intro r hr
    unfold create at hr
    rw [List.mem_append] at hr
    cases hr with
    | inl h => exact hs r h
    | inr h =>
        rw [List.mem_singleton] at h
        rw [h]
        exact hm
  · exact syncFold_minutes_nonneg jr entries ⟨s, [], []⟩ hs he

/-- Witness for the amended C9 at concrete inputs. -/
theorem minutes_nonneg_of_nonneg_inputs_witness :
    (0:Rat) ≤ 30 ∧ (∀ e ∈ [exEntry], 0 ≤ e.timeSpentSeconds)
    ∧ (∀ r ∈ (create emptyStore "abc" 30 "d" none "2024-01-02").rows,
        0 ≤ r.minutes)
    ∧ (∀ r ∈ (sync exJr emptyStore [exEntry]).rows, 0 ≤ r.minutes) := by
  have hs : ∀ r ∈ emptyStore.rows, (0:Rat) ≤ r.minutes := by
    intro r hr
    simp [emptyStore] at hr
  have hm : (0:Rat) ≤ 30 := by norm_num
  have he : ∀ e ∈ [exEntry], (0:Int) ≤ e.timeSpentSeconds := by
    intro e hee
    rw [List.mem_singleton] at hee
    rw [hee]
    decide
  have h := minutes_nonneg_of_nonneg_inputs emptyStore "abc" "d" none
    "2024-01-02" 30 exJr [exEntry] hs hm he
  exact ⟨hm, he, h.1, h.2⟩

/-! ## Memoization of issue lookups within one sync run -/

/-- Invariant of the sync loop state: the query log holds no
duplicates, the memo map holds exactly the queried ids, and every
memoized value is what the issue tracker returns for its id. -/
def MemoInv (jr : Nat → JiraResp) (st : SyncState) : Prop :=
  st.queries.Nodup
  ∧ (∀ i : Nat, (memoLookup st.memo i).isSome ↔ i ∈ st.queries)
  ∧ ∀ p ∈ st.memo, p.2 = jira_issue_info jr p.1

lemma memoLookup_cons (j i : Nat) (info : IssueInfo) (m : List (Nat × IssueInfo)) :
    memoLookup ((j, info) :: m) i =
      if j = i then some info else memoLookup m i := by
  by_cases h : j = i <;> simp [memoLookup, List.find?_cons, h]

/-- A memo hit returns exactly the tracker's answer for that id, given
a coherent memo map. -/
lemma memoLookup_coherent (jr : Nat → JiraResp) (m : List (Nat × IssueInfo))
    (i : Nat) (info : IssueInfo)
    (h : memoLookup m i = some info)
    (hinv : ∀ p ∈ m, p.2 = jira_issue_info jr p.1) :
    info = jira_issue_info jr i := by
  unfold memoLookup at h
  cases hf : m.find? (fun p => p.1 = i) with
  | none => rw [hf] at h; simp at h
  | some pr =>
      rw [hf] at h
      simp only [Option.map_some'] at h
      have h1 : pr.1 = i := by simpa using List.find?_some hf
      have h2 : pr ∈ m := List.mem_of_find?_eq_some hf
      have h3 : pr.2 = info := Option.some.inj h
      rw [← h3, hinv pr h2, h1]

/-- Master lemma: the sync loop preserves the memo invariant, logs
exactly the issue ids of the processed entries, and computes the same
store as the loop that resolves every entry directly against the
tracker. -/
lemma syncFold_memoized (jr : Nat → JiraResp) (entries : List ClockEntry) :
    ∀ st : SyncState, MemoInv jr st →
      MemoInv jr (entries.foldl (syncStep jr) st)
      ∧ (∀ i, i ∈ (entries.foldl (syncStep jr) st).queries ↔
          i ∈ st.queries ∨ i ∈ entries.map ClockEntry.issue_id)
      ∧ (entries.foldl (syncStep jr) st).store =
          entries.foldl
            (fun acc e => upsert acc e (jira_issue_info jr e.issue_id))
            st.store := by
  induction entries with
  | nil =>
      intro st h
      exact ⟨h, fun i => by simp, rfl⟩
  | cons e rest ih =>
      intro st hinv
      cases hm : memoLookup st.memo e.issue_id with
      | some info =>
          have hinfo : info = jira_issue_info jr e.issue_id :=
            memoLookup_coherent jr st.memo e.issue_id info hm hinv.2.2
          have hstep : syncStep jr st e =
              { st with store := upsert st.store e info } := by
            unfold syncStep
            rw [hm]
          have hinv' : MemoInv jr { st with store := upsert st.store e info } :=
            hinv
          obtain ⟨h1, h2, h3⟩ := ih _ hinv'
          refine ⟨by rwa [List.foldl_cons, hstep], ?_, ?_⟩
          · intro i
            rw [List.foldl_cons, hstep, h2 i]
            simp only [List.map_cons, List.mem_cons]
            constructor
            · rintro (h | h)
              · exact Or.inl h
              · exact Or.inr (Or.inr h)
            · rintro (h | h | h)
              · exact Or.inl h
              · subst h
                have hsome : (memoLookup st.memo e.issue_id).isSome := by
                  rw [hm]; rfl
                exact Or.inl ((hinv.2.1 _).mp hsome)
              · exact Or.inr h
          · rw [List.foldl_cons, hstep, List.foldl_cons, h3, hinfo]
      | none =>
          have hstep : syncStep jr st e =
              ⟨upsert st.store e (jira_issue_info jr e.issue_id),
               (e.issue_id, jira_issue_info jr e.issue_id) :: st.memo,
               st.queries ++ [e.issue_id]⟩ := by
            unfold syncStep
            rw [hm]
          have hnotin : e.issue_id ∉ st.queries := by
            intro hq
            have hsome := (hinv.2.1 e.issue_id).mpr hq
            rw [hm] at hsome
            simp at hsome
          have hinv' : MemoInv jr
              ⟨upsert st.store e (jira_issue_info jr e.issue_id),
               (e.issue_id, jira_issue_info jr e.issue_id) :: st.memo,
               st.queries ++ [e.issue_id]⟩ := by
            refine ⟨?_, ?_, ?_⟩
            · simp [List.nodup_append, hinv.1, hnotin]
            · intro i
              rw [memoLookup_cons]
              by_cases hji : e.issue_id = i
              · subst hji
                simp
              · simp only [if_neg hji]
                rw [hinv.2.1 i]
                constructor
                · intro h
                  exact List.mem_append.mpr (Or.inl h)
                · intro h
                  rcases List.mem_append.mp h with h | h
                  · exact h
                  · rw [List.mem_singleton] at h
                    exact absurd h.symm hji
            · intro p hp
              rw [List.mem_cons] at hp
              cases hp with
              | inl h => rw [h]
              | inr h => exact hinv.2.2 p h
          obtain ⟨h1, h2, h3⟩ := ih _ hinv'
          refine ⟨by rwa [List.foldl_cons, hstep], ?_, ?_⟩
          · intro i
            rw [List.foldl_cons, hstep, h2 i]
            simp only [List.map_cons, List.mem_cons, List.mem_append,
              List.mem_singleton]
            tauto
          · rw [List.foldl_cons, hstep, List.foldl_cons, h3]

/-- C8: within one sync run, the issue tracker is queried at most once
per distinct issue id (the query log has no duplicates and holds
exactly the batch's issue ids), and the stored result is as if every
entry were resolved directly to `jira_issue_info` of its issue id —
entries sharing an issue id receive the same key, summary, and
project (the key's first 3 characters). -/
theorem sync_memoizes_issue_lookups (jr : Nat → JiraResp) (s : Store)
    (entries : List ClockEntry) :
    (syncRun jr s entries).queries.Nodup
    ∧ (∀ i, i ∈ (syncRun jr s entries).queries ↔
        i ∈ entries.map ClockEntry.issue_id)
    ∧ (syncRun jr s entries).store =
        entries.foldl
          (fun acc e => upsert acc e (jira_issue_info jr e.issue_id)) s := by
  have hinv0 : MemoInv jr ⟨s, [], []⟩ := by
    refine ⟨List.nodup_nil, ?_, ?_⟩
    · intro i
      simp [memoLookup]
    · intro p hp
      simp at hp
  obtain ⟨h1, h2, h3⟩ := syncFold_memoized jr entries ⟨s, [], []⟩ hinv0
  exact ⟨h1.1, fun i => by simpa using h2 i, h3⟩

/-! ## Single commit and atomicity of sync -/

/-- An UPDATE matching nothing leaves the table unchanged. -/
lemma updateRows_of_count_zero (rs : List Row) (e : ClockEntry)
    (info : IssueInfo) (h : updateCount rs e = 0) :
    updateRows rs e info = rs := by
  unfold updateCount at h
  rw [List.countP_eq_zero] at h
  unfold updateRows
  induction rs with
  | nil => rfl
  | cons r rest ih =>
      rw [List.map_cons]
      have hr : ¬ r.entry_id = some e.id := by
        simpa using h r (List.mem_cons_self r rest)
      rw [ih (fun x hx => h x (List.mem_cons_of_mem r hx))]
      unfold applyUpdate
      rw [if_neg hr]

/-- Replaying the statements of one upsert equals the upsert. -/
lemma foldl_upsertActs (s : Store) (e : ClockEntry) (info : IssueInfo) :
    (upsertActs s e info).foldl applyAction s = upsert s e info := by
  unfold upsertActs upsert
  split
  case isTrue h =>
    simp only [List.foldl_cons, List.foldl_nil, applyAction]
    rw [updateRows_of_count_zero s.rows e info h]
  case isFalse h =>
    simp only [List.foldl_cons, List.foldl_nil, applyAction]

/-- The statements of one upsert contain no COMMIT. -/
lemma upsertActs_no_commit (s : Store) (e : ClockEntry) (info : IssueInfo) :
    ∀ a ∈ upsertActs s e info, isCommit a = false := by
  intro a ha
  unfold upsertActs at ha
  split at ha
  · rw [List.mem_cons, List.mem_singleton] at ha
    rcases ha with ha | ha <;> rw [ha] <;> rfl
  · rw [List.mem_singleton] at ha
    rw [ha]
    rfl

/-- The loop of `sync` never commits, and on success replaying its
trace from the initial store yields exactly the final in-memory
store. -/
lemma syncLoopT_spec (jrE : Nat → Except Unit JiraResp)
    (entries : List ClockEntry) :
    ∀ st : SyncState,
      (∀ a ∈ (syncLoopT jrE st entries).1, isCommit a = false)
      ∧ (∀ st2, (syncLoopT jrE st entries).2 = .ok st2 →
          (syncLoopT jrE st entries).1.foldl applyAction st.store = st2.store) := by
  induction entries with
  | nil =>
      intro st
      refine ⟨by intro a ha; simp [syncLoopT] at ha, ?_⟩
      intro st2 h
      simp only [syncLoopT] at h ⊢
      cases h
      rfl
  | cons e rest ih =>
      intro st
      cases hm : memoLookup st.memo e.issue_id with
      | some info =>
          have heq : syncLoopT jrE st (e :: rest) =
              (upsertActs st.store e info ++
                (syncLoopT jrE { st with store := upsert st.store e info } rest).1,
               (syncLoopT jrE { st with store := upsert st.store e info } rest).2) := by
            simp only [syncLoopT, hm]
          obtain ⟨ihc, ihr⟩ := ih { st with store := upsert st.store e info }
          constructor
          · intro a ha
            rw [heq] at ha
            rcases List.mem_append.mp ha with h | h
            · exact upsertActs_no_commit st.store e info a h
            · exact ihc a h
          · intro st2 h2
            rw [heq] at h2 ⊢
            simp only at h2 ⊢
            rw [List.foldl_append, foldl_upsertActs]
            exact ihr st2 h2
      | none =>
          cases hj : jrE e.issue_id with
          | error err =>
              have heq : syncLoopT jrE st (e :: rest) = ([], .error err) := by
                simp only [syncLoopT, hm, hj]
              refine ⟨?_, ?_⟩
              · intro a ha
                rw [heq] at ha
                simp at ha
              · intro st2 h2
                rw [heq] at h2
                simp at h2
          | ok resp =>
              have heq : syncLoopT jrE st (e :: rest) =
                  (upsertActs st.store e ⟨resp.key, resp.summary, resp.key.take 3⟩ ++
                    (syncLoopT jrE
                      ⟨upsert st.store e ⟨resp.key, resp.summary, resp.key.take 3⟩,
                       (e.issue_id, ⟨resp.key, resp.summary, resp.key.take 3⟩) :: st.memo,
                       st.queries ++ [e.issue_id]⟩ rest).1,
                   (syncLoopT jrE
                      ⟨upsert st.store e ⟨resp.key, resp.summary, resp.key.take 3⟩,
                       (e.issue_id, ⟨resp.key, resp.summary, resp.key.take 3⟩) :: st.memo,
                       st.queries ++ [e.issue_id]⟩ rest).2) := by
                simp only [syncLoopT, hm, hj]
              obtain ⟨ihc, ihr⟩ := ih
                ⟨upsert st.store e ⟨resp.key, resp.summary, resp.key.take 3⟩,
                 (e.issue_id, ⟨resp.key, resp.summary, resp.key.take 3⟩) :: st.memo,
                 st.queries ++ [e.issue_id]⟩
              constructor
              · intro a ha
                rw [heq] at ha
                rcases List.mem_append.mp ha with h | h
                · exact upsertActs_no_commit st.store e _ a h
                · exact ihc a h
              · intro st2 h2
                rw [heq] at h2 ⊢
                simp only at h2 ⊢
                rw [List.foldl_append, foldl_upsertActs]
                exact ihr st2 h2

/-- A trace without COMMIT persists nothing. -/
lemma committedPart_of_no_commit (tr : List DbAction)
    (h : ∀ a ∈ tr, isCommit a = false) : committedPart tr = [] := by
  induction tr with
  | nil => rfl
  | cons a rest ih =>
      unfold committedPart
      have hany : rest.any isCommit = false := by
        rw [List.any_eq_false]
        intro x hx
        simp [h x (List.mem_cons_of_mem a hx)]
      rw [hany]
      simp [h a (List.mem_cons_self a rest)]

/-- A trace of commit-free statements followed by one COMMIT is
persisted in full. -/
lemma committedPart_concat_commit (tr : List DbAction)
    (h : ∀ a ∈ tr, isCommit a = false) :
    committedPart (tr ++ [DbAction.commit]) = tr ++ [DbAction.commit] := by
  induction tr with
  | nil =>
      unfold committedPart
      simp [isCommit, committedPart]
  | cons a rest ih =>
      rw [List.cons_append]
      unfold committedPart
      have hany : (rest ++ [DbAction.commit]).any isCommit = true := by
        rw [List.any_eq_true]
        exact ⟨DbAction.commit, by simp, rfl⟩
      rw [hany]
      simp only [if_true]
      rw [ih (fun x hx => h x (List.mem_cons_of_mem a hx))]

/-- C3: `sync` executes exactly one COMMIT, as the final statement,
and only when the whole batch was processed; if fetching the batch or
any issue lookup fails, no COMMIT is executed and the persisted store
is unchanged — no partially processed batch becomes visible. -/
theorem sync_commits_once_after_full_batch
    (fetch : Except Unit (List ClockEntry))
    (jrE : Nat → Except Unit JiraResp) (s : Store) :
    (∀ err, (syncT fetch jrE s).2 = .error err →
        (syncT fetch jrE s).1.countP isCommit = 0
        ∧ persisted s (syncT fetch jrE s).1 = s)
    ∧ (∀ s2, (syncT fetch jrE s).2 = .ok s2 →
        (syncT fetch jrE s).1.countP isCommit = 1
        ∧ (syncT fetch jrE s).1.getLast? = some DbAction.commit
        ∧ persisted s (syncT fetch jrE s).1 = s2) := by
  cases fetch with
  | error err0 =>
      have heq : syncT (.error err0) jrE s = ([], .error err0) := rfl
      rw [heq]
      constructor
      · intro err _
        exact ⟨rfl, rfl⟩
      · intro s2 h2
        simp at h2
  | ok entries =>
      obtain ⟨hfree, hreplay⟩ := syncLoopT_spec jrE entries ⟨s, [], []⟩
      cases hres : (syncLoopT jrE ⟨s, [], []⟩ entries).2 with
      | error err0 =>
          have heq : syncT (.ok entries) jrE s =
              ((syncLoopT jrE ⟨s, [], []⟩ entries).1, .error err0) := by
            simp [syncT, hres]
          rw [heq]
          constructor
          · intro err _
            refine ⟨?_, ?_⟩
            · rw [List.countP_eq_zero]
              intro a ha
              simp [hfree a ha]
            · unfold persisted
              rw [committedPart_of_no_commit _ hfree]
              rfl
          · intro s2 h2
            simp at h2
      | ok stF =>
          have heq : syncT (.ok entries) jrE s =
              ((syncLoopT jrE ⟨s, [], []⟩ entries).1 ++ [DbAction.commit],
               .ok stF.store) := by
            simp [syncT, hres]
          rw [heq]
          constructor
          · intro err h2
            simp at h2
          · intro s2 h2
            simp only [Except.ok.injEq] at h2
            refine ⟨?_, ?_, ?_⟩
            · rw [List.countP_append]
              have h0 : (syncLoopT jrE ⟨s, [], []⟩ entries).1.countP isCommit = 0 := by
                rw [List.countP_eq_zero]
                intro a ha
                simp [hfree a ha]
              rw [h0]
              rfl
            · exact List.getLast?_concat _
            · unfold persisted
              rw [committedPart_concat_commit _ hfree, List.foldl_append]
              have := hreplay stF hres
              simp only at this
              rw [this]
              rw [← h2]
              rfl

/-- Witness for C3: with a failing issue lookup the persisted store is
untouched; with both clients succeeding the trace commits exactly
once, at the end. -/
theorem sync_commits_once_after_full_batch_witness :
    ((syncT (.ok [exEntry]) (fun _ => .error ()) exManualStore).2 = .error ()
      ∧ persisted exManualStore
          (syncT (.ok [exEntry]) (fun _ => .error ()) exManualStore).1 =
        exManualStore)
    ∧ ((syncT (.ok [exEntry]) (fun i => .ok (exJr i)) exManualStore).1.countP
          isCommit = 1
      ∧ (syncT (.ok [exEntry]) (fun i => .ok (exJr i)) exManualStore).1.getLast? =
          some DbAction.commit) := by
  have herr : (syncT (.ok [exEntry]) (fun _ => .error ())
      exManualStore).2 = .error () := rfl
  have h1 := (sync_commits_once_after_full_batch (.ok [exEntry])
    (fun _ => .error ()) exManualStore).1 () herr
  obtain ⟨s2, hs2⟩ : ∃ s2, (syncT (.ok [exEntry]) (fun i => .ok (exJr i))
      exManualStore).2 = .ok s2 := ⟨_, rfl⟩
  have h2 := (sync_commits_once_after_full_batch (.ok [exEntry])
    (fun i => .ok (exJr i)) exManualStore).2 s2 hs2
  exact ⟨⟨herr, h1.2⟩, h2.1, h2.2.1⟩
